import Mathlib

/-!
Verification development for the Hachimi game-mod installer
(sources: src/installer.rs, src/utils.rs, launcher/src/main.rs).

The Rust code is shallowly embedded: text buffers become `List Char`
(the config files handled by the code are ASCII, so Rust byte offsets
coincide with character offsets), file contents become `List Nat`
(bytes), the filesystem pieces touched by each operation become
explicit state records, and external collaborators (the SHA-256 digest
of the sha2 crate, the bsdiff patcher, the zstd decoder, the UI prompt
answers, the Steam process liveness) become explicit parameters.
All definitions are computable and follow the Rust control flow
branch by branch.
-/

/-- Brace characters, written via code points so that brace glyphs never
occur in the Lean source text outside comments. -/
def lbrace : Char := Char.ofNat 123

def rbrace : Char := Char.ofNat 125

/-- ASCII whitespace test used by the scanners (the Rust code calls
`char::is_whitespace`; on the ASCII config text handled here the two
agree). -/
def isWs (c : Char) : Bool :=
  c = ' ' || c = '\t' || c = '\n' || c = '\r'

/-- `content[a..b]` of Rust: the characters from index `a` (inclusive)
to `b` (exclusive). -/
def sliceStr (l : List Char) (a b : Nat) : List Char :=
  (l.drop a).take (b - a)

/-- Rust `String::replace_range (a..b, r)`. -/
def replaceRange (l : List Char) (a b : Nat) (r : List Char) : List Char :=
  l.take a ++ r ++ l.drop b

/-- Rust `String::insert_str (i, r)`. -/
def insertAt (l : List Char) (i : Nat) (r : List Char) : List Char :=
  l.take i ++ r ++ l.drop i

/-- Rust `str::find (pat)`: index of the first occurrence of `pat`. -/
def findSubstr (pat : List Char) : List Char → Option Nat
  | [] => if pat.isPrefixOf ([] : List Char) then some 0 else none
  | c :: t =>
    if pat.isPrefixOf (c :: t) then some 0
    else (findSubstr pat t).map (· + 1)

/-- Rust `str::contains (pat)`. -/
def containsSub (s pat : List Char) : Bool :=
  (findSubstr pat s).isSome

/-- Rust `str::find (ch)`: index of the first occurrence of a character. -/
def findCharIdx (c : Char) : List Char → Option Nat
  | [] => none
  | x :: t => if x = c then some 0 else (findCharIdx c t).map (· + 1)

/-- Rust `str::replace (c, r)` for a single-character pattern: every
occurrence of `c` is replaced by `r`. -/
def replaceAll (l : List Char) (c : Char) (r : List Char) : List Char :=
  l.flatMap (fun x => if x = c then r else [x])

/-- `Installer::escape_vdf_value`: first double every backslash, then
escape every double quote (two sequential full-string replaces, in
source order). -/
def escapeVdf (val : List Char) : List Char :=
  replaceAll (replaceAll val '\\' ['\\', '\\']) '"' ['\\', '"']

/-- `format!("\"{}\"", v)`: wrap a value in double quotes. -/
def quoteVdf (v : List Char) : List Char :=
  ('"' :: v) ++ ['"']

/-- The game distribution channels (`GameVersion` in installer.rs). -/
inductive GameVersion
  | DMM
  | Steam
  | SteamGlobal
deriving DecidableEq, Repr

/-- The payload targets (`Target` in installer.rs). -/
inductive Target
  | UnityPlayer
  | CriManaVpx
deriving DecidableEq, Repr

/-- The DLL placement mechanisms (`InstallMethod` in installer.rs). -/
inductive InstallMethod
  | DotLocal
  | PluginShim
  | Direct
deriving DecidableEq, Repr

/-- `Target::dll_name`. -/
def dllNameOf : Target → String
  | .UnityPlayer => "UnityPlayer.dll"
  | .CriManaVpx => "cri_mana_vpx.dll"

/-- `Installer::get_install_method`: `UnityPlayer` always uses DotLocal;
`CriManaVpx` uses Direct when the selected game version is Steam or
SteamGlobal and PluginShim otherwise. -/
def getInstallMethod (gameVersion : Option GameVersion) (target : Target) : InstallMethod :=
  match target with
  | .UnityPlayer => .DotLocal
  | .CriManaVpx =>
    if gameVersion = some .Steam || gameVersion = some .SteamGlobal then .Direct
    else .PluginShim

/-- `Installer::find_vdf_app_range`: find the quoted app id, then the
first opening brace at or after it, then scan with a depth counter
starting at 1 until the depth returns to zero; the returned range is
strictly inside the braces. -/
def braceStep (c : Char) (depth : Int) : Int :=
  if c = lbrace then depth + 1 else if c = rbrace then depth - 1 else depth

def braceScan : List Char → Int → Option Nat
  | [], _ => none
  | c :: rest, depth =>
    if braceStep c depth = 0 then some 0
    else (braceScan rest (braceStep c depth)).map (· + 1)

def findVdfAppRange (content : List Char) (appId : List Char) : Option (Nat × Nat) :=
  let appKey := quoteVdf appId
  match findSubstr appKey content with
  | none => none
  | some appIdx =>
    match findCharIdx lbrace (content.drop appIdx) with
    | none => none
    | some rel =>
      let startBlock := appIdx + rel + 1
      match braceScan (content.drop startBlock) 1 with
      | none => none
      | some i => some (startBlock, startBlock + i)

/-- `Installer::find_vdf_value_range`, part 1: skip whitespace; the
first non-whitespace character must be a double quote, else not found. -/
def scanQuoteClose : List Char → Nat → Option Nat
  | [], _ => none
  | c :: rest, pos =>
    if c = '\\' then
      match rest with
      | [] => none
      | _ :: rest2 => scanQuoteClose rest2 (pos + 2)
    else if c = '"' then some pos
    else scanQuoteClose rest (pos + 1)

def findValueStart : List Char → Nat → Option (Nat × Nat)
  | [], _ => none
  | c :: rest, pos =>
    if isWs c then findValueStart rest (pos + 1)
    else if c = '"' then (scanQuoteClose rest (pos + 1)).map (fun e => (pos, e))
    else none

/-- `Installer::find_vdf_value_range`: offsets of the opening and the
first unescaped closing quote of the leading quoted string; a backslash
skips the following character. -/
def findVdfValueRange (text : List Char) : Option (Nat × Nat) :=
  findValueStart text 0

/-- The literal `"LaunchOptions"` key searched for inside an app block. -/
def launchKey : List Char := "\"LaunchOptions\"".toList

/-- The literal `"FunnyHoney.exe"` marker checked by the restore pass. -/
def funnyMarker : List Char := "FunnyHoney.exe".toList

/-- The fixed Steam app id used for the channel-B (JP Steam) build. -/
def steamAppId : List Char := "3564400".toList

/-- Position of the opening and closing quote of the `LaunchOptions`
value inside the app block of `content`: composition of the three
scanners exactly as the Rust code chains them (app block range, literal
key search inside the block, value range in the area after the key). -/
def launchValueSpan (content : List Char) (appId : List Char) : Option (Nat × Nat) :=
  match findVdfAppRange content appId with
  | none => none
  | some (s, e) =>
    match findSubstr launchKey (sliceStr content s e) with
    | none => none
    | some rel =>
      let after := s + rel + launchKey.length
      match findVdfValueRange (sliceStr content after e) with
      | none => none
      | some (sq, q2) => some (after + sq, after + q2)

/-- First pass of `Installer::setup_launch_options`: does this config
already carry exactly the expected quoted, escaped launch command? -/
def configHasExpected (content : List Char) (appId : List Char) (escaped : List Char) : Bool :=
  match findVdfAppRange content appId with
  | none => false
  | some (s, e) =>
    match findSubstr launchKey (sliceStr content s e) with
    | none => false
    | some rel =>
      let after := s + rel + launchKey.length
      match findVdfValueRange (sliceStr content after e) with
      | none => false
      | some (sq, q2) => sliceStr content (after + sq) (after + q2 + 1) == quoteVdf escaped

/-- Edit pass of `Installer::setup_launch_options` on one config file:
if the app block is found and holds a `LaunchOptions` value, replace the
quoted value with the quoted escaped command and back up the raw
characters strictly between the old quotes; if the block is found but
the key is absent, insert a fresh key/value line before the closing
brace (with an empty backup); otherwise leave the file unmodified.
Returns `(new content, backup value)` when the file was modified. -/
def editConfigSetup (content : List Char) (appId : List Char) (escaped : List Char) :
    Option (List Char × List Char) :=
  match findVdfAppRange content appId with
  | none => none
  | some (s, e) =>
    match findSubstr launchKey (sliceStr content s e) with
    | some rel =>
      let after := s + rel + launchKey.length
      match findVdfValueRange (sliceStr content after e) with
      | some (sq, q2) =>
        some (replaceRange content (after + sq) (after + q2 + 1) (quoteVdf escaped),
              sliceStr content (after + sq + 1) (after + q2))
      | none => none
    | none =>
      some (insertAt content e
        (('\t' :: launchKey) ++ ['\t', '\t', '"'] ++ escaped ++
          ('"' :: '\n' :: ['\t', '\t', '\t', '\t', '\t'])), [])

/-- Edit pass of `Installer::restore_launch_options` on one config file:
only when the app block holds a `LaunchOptions` value whose raw content
contains `FunnyHoney.exe` is the quoted value replaced by the quoted
backup value (written back verbatim, no escaping). -/
def editConfigRestore (content : List Char) (appId : List Char) (backupValue : List Char) :
    Option (List Char) :=
  match findVdfAppRange content appId with
  | none => none
  | some (s, e) =>
    match findSubstr launchKey (sliceStr content s e) with
    | none => none
    | some rel =>
      let after := s + rel + launchKey.length
      match findVdfValueRange (sliceStr content after e) with
      | none => none
      | some (sq, q2) =>
        if containsSub (sliceStr content (after + sq + 1) (after + q2)) funnyMarker then
          some (replaceRange content (after + sq) (after + q2 + 1) (quoteVdf backupValue))
        else none

/-- Error type mirroring `installer::Error` (only the variants the
modelled operations can produce; messages are carried verbatim). -/
inductive InstErr
  | noInstallDir
  | invalidInstallDir
  | ioError
  | verification (details : String)
  | generic (msg : String)
deriving DecidableEq, Repr

/-! ## Hash engine (utils::verify_file_hash)

The SHA-256 digest of the `sha2` crate is an external collaborator and
is passed in as a parameter `hash`; the Rust function streams the file
through the incremental hasher in 1024-byte chunks in order, which by
the digest contract equals the digest of the whole content, so the
model applies `hash` to the full byte list. A file is `none` when it
cannot be opened or read. -/

def hexDigitChar (n : Nat) : Char :=
  if n < 10 then Char.ofNat (48 + n) else Char.ofNat (87 + n)

/-- Two lowercase hex digits per byte: the `format!("{:x}", digest)`
rendering of a byte sequence. -/
def hexOfBytes (bytes : List Nat) : String :=
  String.mk (bytes.flatMap (fun b => [hexDigitChar (b / 16 % 16), hexDigitChar (b % 16)]))

/-- Rust `str::to_lowercase` (per character; the compared strings are
ASCII hex). -/
def lowerStr (s : String) : String :=
  String.mk (s.toList.map Char.toLower)

/-- `utils::verify_file_hash`. -/
def verifyFileHash (hash : List Nat → List Nat) (osMsg : String)
    (file : Option (List Nat)) (expected : String) : Except String Unit :=
  match file with
  | none => .error ("Could not open file: " ++ osMsg)
  | some data =>
    let found := hexOfBytes (hash data)
    if lowerStr found = lowerStr expected then .ok ()
    else .error ("Hash mismatch. Expected " ++ expected ++ ", but found " ++ found)

/-! ## Patch engine (utils::apply_patch)

`bsdiff::patch` is an external collaborator passed in as `bspatch`.
The filesystem is an association list from path to byte content; a
write prepends the new binding (lookup returns the newest). -/

def fsWrite (fs : List (String × List Nat)) (p : String) (d : List Nat) :
    List (String × List Nat) :=
  (p, d) :: fs

/-- `utils::apply_patch`: reconstruct the new bytes in memory, then
create the output file and write them; on a patch error nothing is
written. -/
def applyPatch (bspatch : List Nat → List Nat → Except String (List Nat))
    (originalData patchData : List Nat) (outputPath : String)
    (fs : List (String × List Nat)) : Except String (List (String × List Nat)) :=
  match bspatch originalData patchData with
  | .error e => .error e
  | .ok newData => .ok (fsWrite fs outputPath newData)

/-! ## Steam-closed guard (Installer::ensure_steam_closed)

`steamAt t` is the Steam process liveness at poll instant `t`;
`cancelAt t` the user's answer to the retry/cancel prompt at instant
`t`; `fuel` bounds the polling loop in the model (the Rust loop is
unbounded — exhausting the fuel yields `none`, "still waiting"). -/

structure SetupEnv where
  interactive : Bool
  promptYes : Bool
  steamAt : Nat → Bool
  cancelAt : Nat → Bool
  fuel : Nat
  locateOk : Bool
  userdataExists : Bool
  dirSet : Bool

def steamRunningMsg : String := "Steam is running. Cannot modify configuration."

def steamWaitLoop (steamAt cancelAt : Nat → Bool) : Nat → Nat → Option (Except InstErr Nat)
  | 0, _ => none
  | fuel + 1, t =>
    if !steamAt t then some (.ok t)
    else if cancelAt t then some (.error (.generic steamRunningMsg))
    else steamWaitLoop steamAt cancelAt fuel (t + 1)

/-- `Installer::ensure_steam_closed`: with no window handle (the
non-interactive mode) the check is skipped entirely and the operation
proceeds at instant 0 without ever polling for the Steam process. -/
def ensureSteamClosed (env : SetupEnv) : Option (Except InstErr Nat) :=
  if !env.interactive then some (.ok 0)
  else steamWaitLoop env.steamAt env.cancelAt env.fuel 0

deriving instance DecidableEq for Except

/-- Events recording the order of the file writes performed by
`setup_launch_options`. -/
inductive WriteEv
  | writeBackup (b : List Char)
  | writeConfig (i : Nat) (c : List Char)
deriving DecidableEq, Repr

/-- The launch-options store state: the contents of the existing
per-profile `localconfig.vdf` files in user-profile order, and the
content of the backup sidecar file (`none` = file absent). -/
structure CfgSt where
  configs : List (List Char)
  backup : Option (List Char)
deriving DecidableEq, Repr

structure SetupRes where
  st : CfgSt
  writes : List WriteEv
  result : Except InstErr Unit
  editTime : Option Nat
  prompted : Bool
deriving DecidableEq, Repr

/-- Second loop of `setup_launch_options`: walk the configs in order;
the first one the edit pass modifies is replaced and the loop breaks
(later configs are not examined). Returns the new config list, the
backup value, the index of the modified config and its new content. -/
def setupEditLoop (appId escaped : List Char) :
    List (List Char) → Option (List (List Char) × List Char × Nat × List Char)
  | [] => none
  | c :: rest =>
    match editConfigSetup c appId escaped with
    | some (c2, b) => some (c2 :: rest, b, 0, c2)
    | none =>
      match setupEditLoop appId escaped rest with
      | some (cs, b, i, c2) => some (c :: cs, b, i + 1, c2)
      | none => none

/-- `Installer::setup_launch_options` (with the launch command of
`get_launch_command` passed in as `launchCmd`): locate Steam; if any
profile already carries exactly the expected quoted escaped value,
succeed immediately without prompting; otherwise ask for confirmation
(interactive mode only; declining succeeds without editing), wait for
Steam to close, and rewrite the first editable profile config, writing
the backup sidecar before the config file. -/
def setupLaunchOptions (env : SetupEnv) (launchCmd appId : List Char) (st : CfgSt) :
    Option SetupRes :=
  let escaped := escapeVdf launchCmd
  if !env.locateOk then
    some ⟨st, [], .error (.generic "Could not locate Steam"), none, false⟩
  else if env.userdataExists && st.configs.any (fun c => configHasExpected c appId escaped) then
    some ⟨st, [], .ok (), none, false⟩
  else if env.interactive && !env.promptYes then
    some ⟨st, [], .ok (), none, true⟩
  else
    match ensureSteamClosed env with
    | none => none
    | some (.error e) => some ⟨st, [], .error e, none, env.interactive⟩
    | some (.ok t) =>
      if !env.userdataExists then some ⟨st, [], .ok (), none, env.interactive⟩
      else if !env.dirSet then some ⟨st, [], .error .noInstallDir, none, env.interactive⟩
      else
        match setupEditLoop appId escaped st.configs with
        | none => some ⟨st, [], .ok (), none, env.interactive⟩
        | some (cs, b, i, c2) =>
          some ⟨⟨cs, some b⟩, [.writeBackup b, .writeConfig i c2], .ok (), some t,
                env.interactive⟩

structure RestoreRes where
  st : CfgSt
  result : Except InstErr Unit
  editTime : Option Nat
deriving DecidableEq, Repr

/-- `Installer::restore_launch_options`: confirm (interactive mode;
declining succeeds untouched), wait for Steam to close, and when the
backup sidecar exists rewrite every profile config whose app block
currently routes through `FunnyHoney.exe` back to the quoted backup
value, then delete the backup file. -/
def restoreLaunchOptions (env : SetupEnv) (appId : List Char) (st : CfgSt) :
    Option RestoreRes :=
  if env.interactive && !env.promptYes then some ⟨st, .ok (), none⟩
  else
    match ensureSteamClosed env with
    | none => none
    | some (.error e) => some ⟨st, .error e, none⟩
    | some (.ok t) =>
      if !env.dirSet then some ⟨st, .error .noInstallDir, none⟩
      else
        match st.backup with
        | none => some ⟨st, .ok (), none⟩
        | some bv =>
          if !env.locateOk then some ⟨st, .error (.generic "Could not locate Steam"), none⟩
          else if !env.userdataExists then some ⟨st, .ok (), none⟩
          else
            some ⟨⟨st.configs.map (fun c => (editConfigRestore c appId bv).getD c), none⟩,
                  .ok (), some t⟩

/-- The filesystem slice touched by `Installer::uninstall` (for a
selected install root): presence flags for the files it may delete or
move, plus the launch-options store. -/
structure UninstSt where
  dllExists : Bool
  apphelpExists : Bool
  shimSrcExists : Bool
  shimDestExists : Bool
  patchedExists : Bool
  launcherExists : Bool
  cfg : CfgSt
deriving DecidableEq, Repr

structure UninstRes where
  st : UninstSt
  result : Except InstErr Unit
deriving DecidableEq, Repr

/-- `Installer::uninstall`: remove the installed payload (an error if
absent), method-specific reversal, and for the channel-B Steam version
delete the patched executable and relauncher, then restore the launch
options. -/
def uninstall (env : SetupEnv) (gv : Option GameVersion) (target : Target)
    (st : UninstSt) : Option UninstRes :=
  if !env.dirSet then some ⟨st, .error .noInstallDir⟩
  else if !st.dllExists then some ⟨st, .error .ioError⟩
  else
    let st1 := { st with dllExists := false }
    let methodRes : UninstSt × Except InstErr Unit :=
      match getInstallMethod gv target with
      | .DotLocal => ({ st1 with apphelpExists := false }, .ok ())
      | .PluginShim =>
        if !st1.shimSrcExists then
          if st1.shimDestExists then
            ({ st1 with shimSrcExists := true, shimDestExists := false }, .ok ())
          else (st1, .error .ioError)
        else (st1, .ok ())
      | .Direct => (st1, .ok ())
    match methodRes with
    | (st2, .error e) => some ⟨st2, .error e⟩
    | (st2, .ok ()) =>
      if gv = some .Steam then
        let st3 := { st2 with patchedExists := false, launcherExists := false }
        match restoreLaunchOptions env steamAppId st3.cfg with
        | none => none
        | some r => some ⟨{ st3 with cfg := r.st }, r.result⟩
      else some ⟨st2, .ok ()⟩

/-- The expected SHA-256 digest of the unmodified channel-B Steam
executable (constant in installer.rs). -/
def expectedOriginalHash : String :=
  "6519de9bbae11d3f7b779ce09b74e0a0c408b814518bff93da295c8f7b65ad5a"

/-- `Installer` executable-name resolution for the DotLocal folder. -/
def exeNameOf (gv : Option GameVersion) : String :=
  match gv with
  | some .Steam => "UmamusumePrettyDerby_Jpn.exe"
  | some .SteamGlobal => "UmamusumePrettyDerby.exe"
  | _ => "umamusume.exe"

/-- `Installer::get_target_path_internal`, relative to the install root
for DotLocal and Direct, or to the system directory (marked `SYS/`) for
PluginShim. -/
def targetRelPath (gv : Option GameVersion) (target : Target) (name : String) : String :=
  match getInstallMethod gv target with
  | .DotLocal => exeNameOf gv ++ ".local/" ++ name
  | .PluginShim => "SYS/" ++ name
  | .Direct => name

/-- `Installer::get_current_target_path` (relative form). -/
def currentRelPath (gv : Option GameVersion) (target : Target)
    (customTarget : Option String) : String :=
  targetRelPath gv target (customTarget.getD (dllNameOf target))

structure InstSt where
  gameFiles : List (String × List Nat)
  cfg : CfgSt
deriving DecidableEq, Repr

structure InstallRes where
  st : InstSt
  writes : List WriteEv
  result : Except InstErr Unit
deriving DecidableEq, Repr

def steamExeName : String := "UmamusumePrettyDerby_Jpn.exe"

/-- `Installer::install` (with the embedded payload bytes, relauncher
bytes and decompressed patch stream passed as parameters, along with
the digest function and the bsdiff patcher): write the payload DLL,
and for the channel-B Steam version verify the original executable's
digest, reconstruct the patched sibling `FunnyHoney.exe`, write the
relauncher, and set up the launch options. -/
def installM (hash : List Nat → List Nat)
    (bspatch : List Nat → List Nat → Except String (List Nat))
    (dllBytes launcherBytes patchData : List Nat)
    (env : SetupEnv) (launchCmd : List Char)
    (gv : Option GameVersion) (target : Target) (customTarget : Option String)
    (st : InstSt) : Option InstallRes :=
  if !env.dirSet then some ⟨st, [], .error .noInstallDir⟩
  else
    let st1 : InstSt :=
      { st with
        gameFiles := fsWrite st.gameFiles (currentRelPath gv target customTarget) dllBytes }
    match gv with
    | none => some ⟨st1, [], .error .ioError⟩
    | some .DMM => some ⟨st1, [], .ok ()⟩
    | some .SteamGlobal => some ⟨st1, [], .ok ()⟩
    | some .Steam =>
      match verifyFileHash hash "os" (st1.gameFiles.lookup steamExeName) expectedOriginalHash with
      | .error details => some ⟨st1, [], .error (.verification details)⟩
      | .ok () =>
        match st1.gameFiles.lookup steamExeName with
        | none => some ⟨st1, [], .error .ioError⟩
        | some originalExeData =>
          match bspatch originalExeData patchData with
          | .error e => some ⟨st1, [], .error (.generic e)⟩
          | .ok patched =>
            let st2 : InstSt :=
              { st1 with gameFiles := fsWrite st1.gameFiles "FunnyHoney.exe" patched }
            let st3 : InstSt :=
              { st2 with gameFiles := fsWrite st2.gameFiles "hachimi_launcher.exe" launcherBytes }
            match setupLaunchOptions env launchCmd steamAppId st3.cfg with
            | none => none
            | some r => some ⟨{ st3 with cfg := r.st }, r.writes, r.result⟩

/-- `Installer::detect_version_from_dir`: membership of the three
marker executables in the filesystem, checked in source order. -/
def detectVersionFromDir (files : List String) (dir : String) : Option GameVersion :=
  if files.contains (dir ++ "/umamusume.exe") then some .DMM
  else if files.contains (dir ++ "/UmamusumePrettyDerby_Jpn.exe") then some .Steam
  else if files.contains (dir ++ "/UmamusumePrettyDerby.exe") then some .SteamGlobal
  else none

/-- The `Installer` struct's directory/version state. -/
structure InstallerSt where
  dmmInstallDir : Option String
  steamInstallDir : Option String
  steamGlobalInstallDir : Option String
  installDir : Option String
  gameVersion : Option GameVersion
  target : Target
  customTarget : Option String
deriving DecidableEq, Repr

/-- `Installer::set_install_dir`: on a recognized directory set the
selected dir, the version and the matching per-channel field; on an
unrecognized one return the invalid-install-dir error and leave the
state untouched. -/
def setInstallDir (files : List String) (st : InstallerSt) (dir : String) :
    InstallerSt × Except InstErr Unit :=
  match detectVersionFromDir files dir with
  | some v =>
    let st1 := { st with installDir := some dir, gameVersion := some v }
    let st2 :=
      match v with
      | .DMM => { st1 with dmmInstallDir := some dir }
      | .Steam => { st1 with steamInstallDir := some dir }
      | .SteamGlobal => { st1 with steamGlobalInstallDir := some dir }
    (st2, .ok ())
  | none => (st, .error .invalidInstallDir)

/-- The contribution of one character to the brace depth. -/
def charBal (c : Char) : Int :=
  if c = lbrace then 1 else if c = rbrace then -1 else 0

/-- Net brace balance of a character list: occurrences of the opening
brace minus occurrences of the closing brace (the quantity the depth
counter of `find_vdf_app_range` tracks). -/
def braceBal : List Char → Int
  | [] => 0
  | c :: rest => charBal c + braceBal rest

/-! ## Concrete fixtures used by witnesses and counterexamples -/

/-- Non-interactive environment, Steam not running, everything located. -/
def envQuiet : SetupEnv :=
  ⟨false, false, fun _ => false, fun _ => false, 1, true, true, true⟩

/-- Non-interactive environment with the Steam client running at every
instant. -/
def envSteamUp : SetupEnv :=
  ⟨false, false, fun _ => true, fun _ => false, 1, true, true, true⟩

/-- Interactive environment, Steam not running, user answers yes. -/
def envInter : SetupEnv :=
  ⟨true, true, fun _ => false, fun _ => false, 1, true, true, true⟩

/-- A config whose app block already carries the expected command `X`. -/
def cfgIdem : List Char := "\"3564400\" \x7b \"LaunchOptions\" \"X\" \x7d".toList

/-- A config whose current launch-options value contains an escape
sequence (the raw characters between the quotes are `a\\b`, the
unescaped value is `a\b`). -/
def cfgEsc : List Char := "\"3564400\" \x7b \"LaunchOptions\" \"a\\\\b\" \x7d".toList

/-- A config with the app block present and a plain `%command%` value
(no `FunnyHoney.exe` marker). -/
def cfgPlain : List Char := "\"3564400\" \x7b \"LaunchOptions\" \"%command%\" \x7d".toList

/-- Uninstall fixture: everything present, backup holds `orig`, one
profile config with a plain launch-options value. -/
def uninstFix : UninstSt :=
  ⟨true, true, true, true, true, true, ⟨[cfgPlain], some ("orig".toList)⟩⟩

/-- A bsdiff stub producing fixed output. -/
def bspatchConst : List Nat → List Nat → Except String (List Nat) := fun _ _ => .ok [1, 2]

/-- A bsdiff stub that fails. -/
def bspatchFail : List Nat → List Nat → Except String (List Nat) := fun _ _ => .error "bad"

/-- A digest stub producing the single byte 0. -/
def hashConst : List Nat → List Nat := fun _ => [0]

/-- A blank installer state fixture. -/
def instSt0 : InstallerSt := ⟨none, none, none, none, none, .UnityPlayer, none⟩

/-! ## Claim theorems -/

/-- C5: `get_install_method` maps the UnityPlayer payload to the
Side-Loaded (DotLocal) method on every channel, and maps the CriManaVpx
payload to Direct on the Steam and SteamGlobal channels and to Shim
Swap (PluginShim) on the DMM channel. -/
theorem C5_install_method_matrix :
    (∀ gv : GameVersion, getInstallMethod (some gv) .UnityPlayer = .DotLocal) ∧
    getInstallMethod (some .Steam) .CriManaVpx = .Direct ∧
    getInstallMethod (some .SteamGlobal) .CriManaVpx = .Direct ∧
    getInstallMethod (some .DMM) .CriManaVpx = .PluginShim :=
  ⟨fun gv => by cases gv <;> rfl, rfl, rfl, rfl⟩

/-- C9: `set_install_dir` returns the invalid-install-dir error exactly
when the directory contains none of the three marker executables; in
that case the whole installer state is left unchanged; on success the
selected directory, the game version and the matching per-channel
directory field are set together. -/
theorem C9_set_install_dir_spec (files : List String) (st : InstallerSt) (dir : String) :
    ((setInstallDir files st dir).2 = .error .invalidInstallDir ↔
      ((dir ++ "/umamusume.exe") ∉ files ∧
       (dir ++ "/UmamusumePrettyDerby_Jpn.exe") ∉ files ∧
       (dir ++ "/UmamusumePrettyDerby.exe") ∉ files)) ∧
    ((setInstallDir files st dir).2 ≠ .ok () → (setInstallDir files st dir).1 = st) ∧
    (∀ v, detectVersionFromDir files dir = some v →
      (setInstallDir files st dir).2 = .ok () ∧
      (setInstallDir files st dir).1.installDir = some dir ∧
      (setInstallDir files st dir).1.gameVersion = some v ∧
      (match v with
       | .DMM => (setInstallDir files st dir).1.dmmInstallDir
       | .Steam => (setInstallDir files st dir).1.steamInstallDir
       | .SteamGlobal => (setInstallDir files st dir).1.steamGlobalInstallDir) = some dir) := by
  by_cases h1 : (dir ++ "/umamusume.exe") ∈ files <;>
    by_cases h2 : (dir ++ "/UmamusumePrettyDerby_Jpn.exe") ∈ files <;>
      by_cases h3 : (dir ++ "/UmamusumePrettyDerby.exe") ∈ files <;>
        simp [setInstallDir, detectVersionFromDir, h1, h2, h3]

/-- C9 witness: a directory with no marker executable is rejected with
the invalid-install-dir error. -/
theorem C9_witness :
    (setInstallDir [] instSt0 "d").2 = .error .invalidInstallDir :=
  (C9_set_install_dir_spec [] instSt0 "d").1.mpr (by decide)

/-- C6: `verify_file_hash` succeeds exactly when the digest of the full
file content, rendered as lowercase hex, equals the expected hex string
under case-insensitive comparison; otherwise it fails with a message
carrying the correctly computed digest of the actual content; an
unreadable file yields a read error. -/
theorem C6_verify_hash_spec (hash : List Nat → List Nat) (osMsg : String)
    (file : Option (List Nat)) (expected : String) :
    (file = none →
      verifyFileHash hash osMsg file expected = .error ("Could not open file: " ++ osMsg)) ∧
    (∀ d, file = some d →
      ((verifyFileHash hash osMsg file expected = .ok ()) ↔
        lowerStr (hexOfBytes (hash d)) = lowerStr expected) ∧
      (lowerStr (hexOfBytes (hash d)) ≠ lowerStr expected →
        verifyFileHash hash osMsg file expected =
          .error ("Hash mismatch. Expected " ++ expected ++ ", but found " ++
            hexOfBytes (hash d)))) := by
  refine ⟨fun h => by subst h; rfl, fun d h => ?_⟩
  subst h
  unfold verifyFileHash
  constructor
  · constructor
    · intro hok
      by_cases hh : lowerStr (hexOfBytes (hash d)) = lowerStr expected
      · exact hh
      · simp [hh] at hok
    · intro hh
      simp [hh]
  · intro hne
    simp [hne]

/-- C6 witness: a file whose digest renders to the expected hex string
verifies successfully. -/
theorem C6_witness : verifyFileHash hashConst "" (some []) "00" = .ok () :=
  ((C6_verify_hash_spec hashConst "" (some []) "00").2 [] rfl).1.mpr (by decide)

/-- C10: when some profile's config already holds exactly the quoted,
escaped launch command this install would write, `setup_launch_options`
returns success immediately: no prompt is shown, no config file is
modified, and the backup sidecar is neither created nor overwritten. -/
theorem C10_setup_idempotent (env : SetupEnv) (launchCmd appId : List Char) (st : CfgSt)
    (hloc : env.locateOk = true) (hud : env.userdataExists = true)
    (hmatch : st.configs.any (fun c => configHasExpected c appId (escapeVdf launchCmd)) = true) :
    setupLaunchOptions env launchCmd appId st = some ⟨st, [], .ok (), none, false⟩ := by
  unfold setupLaunchOptions
  simp [hloc, hud, hmatch]

/-- C10 witness: a config already carrying the exact expected value
short-circuits the whole setup. -/
theorem C10_witness :
    setupLaunchOptions envQuiet ['X'] steamAppId ⟨[cfgIdem], none⟩ =
      some ⟨⟨[cfgIdem], none⟩, [], .ok (), none, false⟩ :=
  C10_setup_idempotent envQuiet ['X'] steamAppId ⟨[cfgIdem], none⟩ rfl rfl (by decide)

/-! ## Scanner characterization lemmas -/

theorem findSubstr_none (pat : List Char) (s : List Char)
    (h : ∀ l r, s ≠ l ++ pat ++ r) : findSubstr pat s = none := by
  induction s with
  | nil =>
    rw [findSubstr]
    split
    · next hp =>
      rcases List.isPrefixOf_iff_prefix.mp hp with ⟨t, ht⟩
      exact absurd ht.symm (by simpa using h [] t)
    · rfl
  | cons c tl ih =>
    rw [findSubstr]
    split
    · next hp =>
      rcases List.isPrefixOf_iff_prefix.mp hp with ⟨t, ht⟩
      exact absurd ht.symm (by simpa using h [] t)
    · next hp =>
      have ht : findSubstr pat tl = none := by
        apply ih
        intro l r hlr
        exact h (c :: l) r (by simp [hlr])
      simp [ht]

theorem findSubstr_some (pat : List Char) (s : List Char) (i : Nat)
    (h : findSubstr pat s = some i) :
    pat.isPrefixOf (s.drop i) = true ∧ ∀ j, j < i → pat.isPrefixOf (s.drop j) = false := by
  induction s generalizing i with
  | nil =>
    rw [findSubstr] at h
    split at h
    · next hp =>
      cases h
      exact ⟨by simpa using hp, by omega⟩
    · cases h
  | cons c tl ih =>
    rw [findSubstr] at h
    split at h
    · next hp =>
      cases h
      exact ⟨by simpa using hp, by omega⟩
    · next hp =>
      rcases Option.map_eq_some'.mp h with ⟨i', hi', hii⟩
      subst hii
      obtain ⟨h1, h2⟩ := ih i' hi'
      refine ⟨by simpa using h1, ?_⟩
      intro j hj
      cases j with
      | zero =>
        simpa using Bool.eq_false_iff.mpr hp
      | succ j' =>
        simpa using h2 j' (by omega)

theorem findCharIdx_some (c : Char) (l : List Char) (r : Nat)
    (h : findCharIdx c l = some r) :
    l[r]? = some c ∧ ∀ k, k < r → l[k]? ≠ some c := by
  induction l generalizing r with
  | nil => cases h
  | cons x tl ih =>
    rw [findCharIdx] at h
    split at h
    · next hx =>
      cases h
      subst hx
      exact ⟨by simp, by omega⟩
    · next hx =>
      rcases Option.map_eq_some'.mp h with ⟨r', hr', hrr⟩
      subst hrr
      obtain ⟨h1, h2⟩ := ih r' hr'
      refine ⟨by simpa using h1, ?_⟩
      intro k hk
      cases k with
      | zero =>
        simp only [Nat.add_zero, List.getElem?_cons_zero, ne_eq, Option.some.injEq]
        exact hx
      | succ k' => simpa using h2 k' (by omega)

theorem braceStep_eq (c : Char) (d : Int) : braceStep c d = d + charBal c := by
  unfold braceStep charBal
  split_ifs <;> omega

theorem braceScan_some (l : List Char) (d : Int) (i : Nat) (hd : 0 < d)
    (h : braceScan l d = some i) :
    i < l.length ∧ l[i]? = some rbrace ∧ d + braceBal (l.take (i + 1)) = 0 ∧
      ∀ k, k < i → d + braceBal (l.take (k + 1)) ≠ 0 := by
  induction l generalizing d i with
  | nil => cases h
  | cons c tl ih =>
    rw [braceScan] at h
    by_cases h0 : braceStep c d = 0
    · rw [if_pos h0] at h
      cases h
      have hc : c = rbrace := by
        unfold braceStep at h0
        split_ifs at h0 with hc1 hc2
        · omega
        · exact hc2
        · omega
      have hb := braceStep_eq c d
      refine ⟨by simp, by simp [hc], ?_, by omega⟩
      simp only [List.take_succ_cons, List.take_zero, braceBal]
      omega
    · rw [if_neg h0] at h
      rcases Option.map_eq_some'.mp h with ⟨i', hi', hii⟩
      subst hii
      have hd' : 0 < braceStep c d := by
        have hb := braceStep_eq c d
        unfold charBal at hb
        split_ifs at hb <;> omega
      obtain ⟨hl, hg, hbal, hmin⟩ := ih (braceStep c d) i' hd' hi'
      have hb := braceStep_eq c d
      refine ⟨by simpa using hl, by simpa using hg, ?_, ?_⟩
      · simp only [List.take_succ_cons, braceBal]
        omega
      · intro k hk
        cases k with
        | zero =>
          simp only [List.take_succ_cons, List.take_zero, braceBal]
          omega
        | succ k' =>
          have := hmin k' (by omega)
          simp only [List.take_succ_cons, braceBal]
          omega

/-- C7: `find_vdf_app_range` returns not-found when the quoted outer
key does not occur anywhere in the buffer; and whenever it returns a
range `(s, e)`, the range is located at the first occurrence of the
quoted key, `s` is one past the first opening brace at or after that
occurrence, `e` is the position of the matching closing brace (the
first position at which the brace depth starting at 1 returns to 0, so
arbitrarily nested inner blocks are skipped), and the range is strictly
inside the braces; a concrete block with braces nested three deep is
resolved correctly. -/
theorem C7_find_block_spec :
    (∀ content appId : List Char, (∀ l r : List Char, content ≠ l ++ quoteVdf appId ++ r) →
      findVdfAppRange content appId = none) ∧
    (∀ content appId : List Char, ∀ s e : Nat, findVdfAppRange content appId = some (s, e) →
      ∃ a r,
        ((quoteVdf appId).isPrefixOf (content.drop a) = true ∧
          ∀ j, j < a → (quoteVdf appId).isPrefixOf (content.drop j) = false) ∧
        (content[a + r]? = some lbrace ∧ ∀ k, k < r → content[a + k]? ≠ some lbrace) ∧
        s = a + r + 1 ∧
        e < content.length ∧ content[e]? = some rbrace ∧
        1 + braceBal ((content.drop s).take (e - s + 1)) = 0 ∧
        (∀ k, k < e - s → 1 + braceBal ((content.drop s).take (k + 1)) ≠ 0)) ∧
    (findVdfAppRange
        ("pre \"12\" junk \x7b \"a\" \x7b \"b\" \x7b \"c\" \x7d \x7d \x7d post".toList)
        ("12".toList) = some (15, 36)) := by
  refine ⟨?_, ?_, by decide⟩
  · intro content appId h
    simp only [findVdfAppRange]
    rw [findSubstr_none (quoteVdf appId) content h]
  · intro content appId s e h
    simp only [findVdfAppRange] at h
    split at h
    · cases h
    · next a ha =>
      split at h
      · cases h
      · next r hr =>
        split at h
        · cases h
        · next i hb =>
          simp only [Option.some.injEq, Prod.mk.injEq] at h
          obtain ⟨hs, he⟩ := h
          subst hs
          subst he
          obtain ⟨hp1, hp2⟩ := findSubstr_some _ _ _ ha
          obtain ⟨hc1, hc2⟩ := findCharIdx_some _ _ _ hr
          obtain ⟨hl, hg, hbal, hmin⟩ := braceScan_some _ _ _ (by omega) hb
          refine ⟨a, r, ⟨hp1, hp2⟩, ?_, rfl, ?_, ?_, ?_, ?_⟩
          · constructor
            · rw [← List.getElem?_drop]
              exact hc1
            · intro k hk
              rw [← List.getElem?_drop]
              exact hc2 k hk
          · have := List.length_drop (a + r + 1) content
            omega
          · rw [← List.getElem?_drop]
            simpa using hg
          · simpa using hbal
          · intro k hk
            have := hmin k (by omega)
            simpa using this

/-- C7 witness: a buffer in which the quoted key does not occur yields
not-found. -/
theorem C7_witness : findVdfAppRange [] ['1'] = none :=
  C7_find_block_spec.1 [] ['1'] (fun l r hlr => by
    have hl := congrArg List.length hlr
    simp [quoteVdf] at hl
    omega)

theorem replaceAll_cons (c : Char) (l : List Char) (a : Char) (r : List Char) :
    replaceAll (c :: l) a r = (if c = a then r else [c]) ++ replaceAll l a r := rfl

theorem replaceAll_append (x y : List Char) (a : Char) (r : List Char) :
    replaceAll (x ++ y) a r = replaceAll x a r ++ replaceAll y a r := by
  simp [replaceAll]

/-- One-step unfolding of the two sequential replaces of
`escape_vdf_value`: each character contributes its own escape block. -/
theorem escapeVdf_cons (c : Char) (l : List Char) :
    escapeVdf (c :: l) =
      (if c = '\\' then ['\\', '\\'] else if c = '"' then ['\\', '"'] else [c]) ++
        escapeVdf l := by
  unfold escapeVdf
  rw [replaceAll_cons, replaceAll_append]
  by_cases h1 : c = '\\'
  · subst h1
    rfl
  · by_cases h2 : c = '"'
    · subst h2
      simp [replaceAll]
    · simp [h1, h2, replaceAll]

/-- Scanning the escaped form of any raw value never meets an unescaped
closing quote. -/
theorem scanQuoteClose_escaped_none (raw : List Char) (p : Nat) :
    scanQuoteClose (escapeVdf raw) p = none := by
  induction raw generalizing p with
  | nil => rfl
  | cons c tl ih =>
    rw [escapeVdf_cons]
    by_cases h1 : c = '\\'
    · subst h1
      rw [if_pos rfl]
      exact ih (p + 2)
    · by_cases h2 : c = '"'
      · subst h2
        rw [if_neg h1, if_pos rfl]
        exact ih (p + 2)
      · rw [if_neg h1, if_neg h2]
        show scanQuoteClose (c :: escapeVdf tl) p = none
        rw [scanQuoteClose.eq_def]
        simp [h1, h2]
        exact ih (p + 1)

/-- Scanning past the escaped form of any raw value stops exactly at
the closing quote that follows it: an escaped quote inside never
terminates the string. -/
theorem scanQuoteClose_escaped_close (raw rest : List Char) (p : Nat) :
    scanQuoteClose (escapeVdf raw ++ '"' :: rest) p =
      some (p + (escapeVdf raw).length) := by
  induction raw generalizing p with
  | nil =>
    show scanQuoteClose ('"' :: rest) p = some (p + 0)
    rw [scanQuoteClose.eq_def]
    simp
  | cons c tl ih =>
    rw [escapeVdf_cons]
    by_cases h1 : c = '\\'
    · subst h1
      rw [if_pos rfl]
      show scanQuoteClose ('\\' :: '\\' :: (escapeVdf tl ++ '"' :: rest)) p =
        some (p + ('\\' :: '\\' :: escapeVdf tl).length)
      have := ih (p + 2)
      rw [show scanQuoteClose ('\\' :: '\\' :: (escapeVdf tl ++ '"' :: rest)) p =
        scanQuoteClose (escapeVdf tl ++ '"' :: rest) (p + 2) from rfl, this]
      simp
      omega
    · by_cases h2 : c = '"'
      · subst h2
        rw [if_neg h1, if_pos rfl]
        show scanQuoteClose ('\\' :: '"' :: (escapeVdf tl ++ '"' :: rest)) p =
          some (p + ('\\' :: '"' :: escapeVdf tl).length)
        have := ih (p + 2)
        rw [show scanQuoteClose ('\\' :: '"' :: (escapeVdf tl ++ '"' :: rest)) p =
          scanQuoteClose (escapeVdf tl ++ '"' :: rest) (p + 2) from rfl, this]
        simp
        omega
      · rw [if_neg h1, if_neg h2]
        show scanQuoteClose (c :: (escapeVdf tl ++ '"' :: rest)) p =
          some (p + (c :: escapeVdf tl).length)
        rw [scanQuoteClose.eq_def]
        simp only [h1, h2, if_false]
        rw [ih (p + 1)]
        simp
        omega

/-- Skipping a leading run of whitespace only advances the position. -/
theorem findValueStart_ws_append (ws tail : List Char) (p : Nat)
    (h : ∀ x ∈ ws, isWs x = true) :
    findValueStart (ws ++ tail) p = findValueStart tail (p + ws.length) := by
  induction ws generalizing p with
  | nil => simp
  | cons w ws2 ih =>
    have hw : isWs w = true := h w (by simp)
    show findValueStart (w :: (ws2 ++ tail)) p = _
    rw [findValueStart, if_pos hw, ih (p + 1) (fun x hx => h x (by simp [hx]))]
    congr 1
    simp
    omega

/-- C8: `find_vdf_value_range` returns not-found when the first
non-whitespace character is not a double quote (or the text is all
whitespace); after any whitespace run, for any value written in escaped
form it returns exactly the offsets of the opening quote and of the
closing quote that follows the escaped content, so an escaped quote
inside the value never terminates the string; an escaped value with no
closing quote yields not-found; and on the concrete input `"a\"b"` the
content between the returned quote offsets is the full four characters
`a\"b`. -/
theorem C8_find_quoted_value_spec :
    (∀ ws rest : List Char, ∀ c : Char, (∀ x ∈ ws, isWs x = true) → isWs c = false →
      c ≠ '"' → findVdfValueRange (ws ++ c :: rest) = none) ∧
    (∀ ws : List Char, (∀ x ∈ ws, isWs x = true) → findVdfValueRange ws = none) ∧
    (∀ ws raw rest : List Char, (∀ x ∈ ws, isWs x = true) →
      findVdfValueRange (ws ++ '"' :: (escapeVdf raw ++ '"' :: rest)) =
        some (ws.length, ws.length + 1 + (escapeVdf raw).length)) ∧
    (∀ ws raw : List Char, (∀ x ∈ ws, isWs x = true) →
      findVdfValueRange (ws ++ '"' :: escapeVdf raw) = none) ∧
    (findVdfValueRange ("\"a\\\"b\"".toList) = some (0, 5) ∧
      sliceStr ("\"a\\\"b\"".toList) 1 5 = ['a', '\\', '"', 'b']) := by
  refine ⟨?_, ?_, ?_, ?_, by decide, by decide⟩
  · intro ws rest c hws hc hcq
    unfold findVdfValueRange
    rw [findValueStart_ws_append ws (c :: rest) 0 hws, findValueStart, if_neg (by simp [hc]),
      if_neg hcq]
  · intro ws hws
    unfold findVdfValueRange
    rw [← List.append_nil ws, findValueStart_ws_append ws [] 0 hws]
    rfl
  · intro ws raw rest hws
    unfold findVdfValueRange
    rw [findValueStart_ws_append ws _ 0 hws, findValueStart, if_neg (by decide), if_pos rfl,
      scanQuoteClose_escaped_close]
    simp
    try omega
  · intro ws raw hws
    unfold findVdfValueRange
    rw [findValueStart_ws_append ws _ 0 hws, findValueStart, if_neg (by decide), if_pos rfl,
      scanQuoteClose_escaped_none]
    rfl

/-- C8 witness: a text whose first non-whitespace character is not a
quote yields not-found. -/
theorem C8_witness : findVdfValueRange ([' '] ++ 'x' :: []) = none :=
  C8_find_quoted_value_spec.1 [' '] [] 'x' (by decide) (by decide) (by decide)

/-! ## Lemmas about the config edit passes -/

/-- The rewrite branch of the setup edit pass: when the app block holds
a findable `LaunchOptions` value, the edit replaces exactly the quoted
value span and backs up exactly the characters strictly between the old
quotes. -/
theorem editConfigSetup_rewrite (c appId escaped : List Char) (vs ve : Nat)
    (hspan : launchValueSpan c appId = some (vs, ve)) :
    editConfigSetup c appId escaped =
      some (replaceRange c vs (ve + 1) (quoteVdf escaped), sliceStr c (vs + 1) ve) := by
  unfold launchValueSpan at hspan
  unfold editConfigSetup
  dsimp only at hspan ⊢
  split at hspan
  · cases hspan
  · next s e h1 =>
    split at hspan
    · cases hspan
    · next rel h2 =>
      split at hspan
      · cases hspan
      · next sq q2 h3 =>
        simp only [Option.some.injEq, Prod.mk.injEq] at hspan
        obtain ⟨hv1, hv2⟩ := hspan
        subst hv1
        subst hv2
        simp only [h2, h3]

/-- When not even the app block exists, the setup edit pass leaves the
config alone. -/
theorem editConfigSetup_none_of_noRange (c appId escaped : List Char)
    (h : findVdfAppRange c appId = none) : editConfigSetup c appId escaped = none := by
  unfold editConfigSetup
  rw [h]

theorem configHasExpected_false_of_noRange (c appId escaped : List Char)
    (h : findVdfAppRange c appId = none) : configHasExpected c appId escaped = false := by
  unfold configHasExpected
  rw [h]

/-- The restore edit pass in terms of the value-span locator: a config
is rewritten exactly when its app block holds a `LaunchOptions` value
containing the `FunnyHoney.exe` marker, and then the quoted value span
is replaced by the quoted backup value. -/
theorem editConfigRestore_eq (c appId bv : List Char) :
    editConfigRestore c appId bv =
      match launchValueSpan c appId with
      | some (vs, ve) =>
        if containsSub (sliceStr c (vs + 1) ve) funnyMarker then
          some (replaceRange c vs (ve + 1) (quoteVdf bv))
        else none
      | none => none := by
  unfold editConfigRestore launchValueSpan
  dsimp only
  split
  · rfl
  · split
    · rfl
    · split
      · rfl
      · rfl

/-- Walking the configs: the setup edit loop modifies exactly the first
editable config, leaves every earlier one (which the edit pass refuses)
and every later one untouched. -/
theorem setupEditLoop_some (appId escaped : List Char) (cfgs : List (List Char))
    (cs : List (List Char)) (b : List Char) (i : Nat) (c2 : List Char)
    (h : setupEditLoop appId escaped cfgs = some (cs, b, i, c2)) :
    ∃ c, cfgs[i]? = some c ∧ editConfigSetup c appId escaped = some (c2, b) ∧
      cs = cfgs.set i c2 := by
  induction cfgs generalizing cs i with
  | nil => cases h
  | cons c0 rest ih =>
    rw [setupEditLoop] at h
    cases he : editConfigSetup c0 appId escaped with
    | some pr =>
      obtain ⟨cc2, bb⟩ := pr
      rw [he] at h
      simp only [Option.some.injEq, Prod.mk.injEq] at h
      obtain ⟨rfl, rfl, rfl, rfl⟩ := h
      exact ⟨c0, by simp, he, by simp⟩
    | none =>
      rw [he] at h
      cases hrec : setupEditLoop appId escaped rest with
      | some q =>
        obtain ⟨cs', b', i', c2'⟩ := q
        rw [hrec] at h
        simp only [Option.some.injEq, Prod.mk.injEq] at h
        obtain ⟨rfl, rfl, rfl, rfl⟩ := h
        obtain ⟨c, hc1, hc2, hc3⟩ := ih cs' i' hrec
        exact ⟨c, by simpa using hc1, hc2, by simp [hc3]⟩
      | none =>
        rw [hrec] at h
        simp at h

/-- When no config contains the app block, the setup edit loop finds
nothing to modify. -/
theorem setupEditLoop_none (appId escaped : List Char) (cfgs : List (List Char))
    (h : ∀ c ∈ cfgs, findVdfAppRange c appId = none) :
    setupEditLoop appId escaped cfgs = none := by
  induction cfgs with
  | nil => rfl
  | cons c0 rest ih =>
    rw [setupEditLoop]
    rw [editConfigSetup_none_of_noRange c0 appId escaped (h c0 (by simp))]
    rw [ih (fun c hc => h c (by simp [hc]))]

theorem configsAny_false_of_noRange (appId escaped : List Char) (cfgs : List (List Char))
    (h : ∀ c ∈ cfgs, findVdfAppRange c appId = none) :
    cfgs.any (fun c => configHasExpected c appId escaped) = false := by
  rw [List.any_eq_false]
  intro c hc
  rw [configHasExpected_false_of_noRange c appId escaped (h c hc)]
  simp

/-- C2 (amended): when `setup_launch_options` rewrites an existing
`LaunchOptions` value (under a located Steam install, existing
userdata, a selected install dir, an accepted prompt and a passed
Steam-closed check), the backup sidecar receives exactly the raw
characters standing strictly between the old value's quotes (unquoted,
but still in their in-file escaped form), the backup write event
precedes the config write event, and only the value span of the edited
config is replaced by the quoted escaped command; when no profile's
config contains the app block, the operation succeeds with no config
modified and no backup created. -/
theorem C2_setup_backup_behavior (env : SetupEnv) (launchCmd appId : List Char) (st : CfgSt)
    (t : Nat)
    (hloc : env.locateOk = true) (hud : env.userdataExists = true) (hdir : env.dirSet = true)
    (hpr : (env.interactive && !env.promptYes) = false)
    (hen : ensureSteamClosed env = some (.ok t))
    (hnomatch : st.configs.any
      (fun c => configHasExpected c appId (escapeVdf launchCmd)) = false) :
    (∀ cs b i c2 c vs ve,
      setupEditLoop appId (escapeVdf launchCmd) st.configs = some (cs, b, i, c2) →
      st.configs[i]? = some c →
      launchValueSpan c appId = some (vs, ve) →
      setupLaunchOptions env launchCmd appId st =
        some ⟨⟨st.configs.set i c2, some b⟩, [.writeBackup b, .writeConfig i c2], .ok (),
          some t, env.interactive⟩ ∧
      b = sliceStr c (vs + 1) ve ∧
      c2 = replaceRange c vs (ve + 1) (quoteVdf (escapeVdf launchCmd))) ∧
    ((∀ c ∈ st.configs, findVdfAppRange c appId = none) →
      setupLaunchOptions env launchCmd appId st =
        some ⟨st, [], .ok (), none, env.interactive⟩) := by
  constructor
  · intro cs b i c2 c vs ve hloop hget hspan
    obtain ⟨c', hc1, hc2, hc3⟩ := setupEditLoop_some _ _ _ _ _ _ _ hloop
    rw [hget] at hc1
    injection hc1 with hc1
    subst hc1
    have hedit := editConfigSetup_rewrite c appId (escapeVdf launchCmd) vs ve hspan
    rw [hedit] at hc2
    simp only [Option.some.injEq, Prod.mk.injEq] at hc2
    obtain ⟨hr, hs⟩ := hc2
    subst hc3
    refine ⟨?_, hs.symm, hr.symm⟩
    unfold setupLaunchOptions
    simp [hloc, hud, hdir, hpr, hen, hnomatch, hloop]
  · intro hnone
    have hany := configsAny_false_of_noRange appId (escapeVdf launchCmd) st.configs hnone
    have hloop := setupEditLoop_none appId (escapeVdf launchCmd) st.configs hnone
    unfold setupLaunchOptions
    simp [hloc, hud, hdir, hpr, hen, hany, hloop]

/-- C2 counterexample: the claim as stated says the backup holds the
prior value unescaped; on a config whose current value is the escaped
form of `a\b`, the written backup is exactly that escaped form
`a\\b`, which differs from the unescaped value. -/
theorem C2_counterexample :
    (setupLaunchOptions envQuiet ['X'] steamAppId ⟨[cfgEsc], none⟩).map
        (fun r => r.st.backup) = some (some (escapeVdf ['a', '\\', 'b'])) ∧
    launchValueSpan cfgEsc steamAppId = some (28, 33) ∧
    sliceStr cfgEsc 29 33 = escapeVdf ['a', '\\', 'b'] ∧
    escapeVdf ['a', '\\', 'b'] ≠ ['a', '\\', 'b'] := by decide

/-- C2 witness: with no app block anywhere, setup succeeds and writes
nothing. -/
theorem C2_witness :
    setupLaunchOptions envQuiet ['X'] steamAppId ⟨[], none⟩ =
      some ⟨⟨[], none⟩, [], .ok (), none, false⟩ :=
  (C2_setup_backup_behavior envQuiet ['X'] steamAppId ⟨[], none⟩ 0 rfl rfl rfl rfl rfl
    (by decide)).2 (by intro c hc; cases hc)

/-- On the success path (prompt accepted, Steam closed, backup present,
Steam located, userdata present), the restore pass maps every profile
config through the restore edit and deletes the backup. -/
theorem restoreLaunchOptions_success (env : SetupEnv) (appId : List Char) (cfg : CfgSt)
    (bv : List Char) (t : Nat)
    (hpr : (env.interactive && !env.promptYes) = false)
    (hen : ensureSteamClosed env = some (.ok t))
    (hdir : env.dirSet = true) (hloc : env.locateOk = true) (hud : env.userdataExists = true)
    (hbk : cfg.backup = some bv) :
    restoreLaunchOptions env appId cfg =
      some ⟨⟨cfg.configs.map (fun c => (editConfigRestore c appId bv).getD c), none⟩,
        .ok (), some t⟩ := by
  unfold restoreLaunchOptions
  simp [hpr, hen, hdir, hloc, hud, hbk]

/-- C1 (amended): for the channel-B Steam version, with a selected
install root, the payload present, an accepted prompt, a passed
Steam-closed check, a located Steam install with userdata, and an
existing backup file, `uninstall` succeeds, deletes the patched
executable and the relauncher, deletes the backup file, and rewrites
exactly those profile configs whose app block holds a `LaunchOptions`
value containing `FunnyHoney.exe` — their value span becomes the quoted
backup content verbatim — while every other profile config (even one
containing the app block) is left unchanged. -/
theorem C1_uninstall_steam_restores (env : SetupEnv) (target : Target) (st : UninstSt)
    (bv : List Char) (t : Nat)
    (hdir : env.dirSet = true) (hdll : st.dllExists = true)
    (hpr : (env.interactive && !env.promptYes) = false)
    (hen : ensureSteamClosed env = some (.ok t))
    (hloc : env.locateOk = true) (hud : env.userdataExists = true)
    (hbk : st.cfg.backup = some bv) :
    ∃ res : UninstRes, uninstall env (some .Steam) target st = some res ∧
      res.result = .ok () ∧
      res.st.patchedExists = false ∧
      res.st.launcherExists = false ∧
      res.st.cfg.backup = none ∧
      res.st.cfg.configs.length = st.cfg.configs.length ∧
      ∀ (i : Nat) (c : List Char), st.cfg.configs[i]? = some c →
        (∀ vs ve, launchValueSpan c steamAppId = some (vs, ve) →
          (containsSub (sliceStr c (vs + 1) ve) funnyMarker = true →
            res.st.cfg.configs[i]? =
              some (replaceRange c vs (ve + 1) (quoteVdf bv))) ∧
          (containsSub (sliceStr c (vs + 1) ve) funnyMarker = false →
            res.st.cfg.configs[i]? = some c)) ∧
        (launchValueSpan c steamAppId = none → res.st.cfg.configs[i]? = some c) := by
  have hrest := restoreLaunchOptions_success env steamAppId st.cfg bv t hpr hen hdir hloc hud hbk
  refine ⟨⟨⟨false, ?_, ?_, ?_, false, false,
    ⟨st.cfg.configs.map (fun c => (editConfigRestore c steamAppId bv).getD c), none⟩⟩, .ok ()⟩,
    ?_, rfl, rfl, rfl, rfl, by simp, ?_⟩
  · exact if target = .UnityPlayer then false else st.apphelpExists
  · exact st.shimSrcExists
  · exact st.shimDestExists
  · unfold uninstall
    cases target with
    | UnityPlayer =>
      simp [hdir, hdll, getInstallMethod, hrest]
    | CriManaVpx =>
      simp [hdir, hdll, getInstallMethod, hrest]
  · intro i c hget
    have hmap : (st.cfg.configs.map
        (fun x => (editConfigRestore x steamAppId bv).getD x))[i]? =
        some ((editConfigRestore c steamAppId bv).getD c) := by
      rw [List.getElem?_map, hget]
      rfl
    have hval := editConfigRestore_eq c steamAppId bv
    constructor
    · intro vs ve hspan
      rw [hspan] at hval
      dsimp only at hval
      constructor
      · intro hcont
        rw [hcont] at hval
        simp only [if_true] at hval
        dsimp only
        rw [hmap, hval]
        rfl
      · intro hcont
        rw [hcont] at hval
        simp only [Bool.false_eq_true, if_false] at hval
        dsimp only
        rw [hmap, hval]
        rfl
    · intro hspan
      rw [hspan] at hval
      dsimp only at hval
      dsimp only
      rw [hmap, hval]
      rfl

/-- C1 counterexample: the claim as stated says uninstall restores the
backup value into every profile config containing the app block; on a
profile whose app block is present but whose current `LaunchOptions`
value is plain `%command%` (no `FunnyHoney.exe`), uninstall succeeds,
deletes the backup, and leaves that config byte-for-byte unchanged —
its value is never set to the backed-up `orig`. -/
theorem C1_counterexample :
    (uninstall envQuiet (some .Steam) .CriManaVpx uninstFix).map
        (fun r => (r.st.cfg.configs, r.st.cfg.backup, r.result)) =
      some ([cfgPlain], none, .ok ()) ∧
    (findVdfAppRange cfgPlain steamAppId).isSome = true ∧
    launchValueSpan cfgPlain steamAppId = some (28, 38) ∧
    sliceStr cfgPlain 29 38 = "%command%".toList ∧
    "%command%".toList ≠ ("orig".toList : List Char) := by decide

/-- C1 witness: a concrete uninstall run satisfying all hypotheses of
the amended theorem. -/
theorem C1_witness :
    ∃ res : UninstRes, uninstall envQuiet (some .Steam) .CriManaVpx uninstFix = some res ∧
      res.result = .ok () ∧
      res.st.patchedExists = false ∧
      res.st.launcherExists = false ∧
      res.st.cfg.backup = none ∧
      res.st.cfg.configs.length = uninstFix.cfg.configs.length ∧
      ∀ (i : Nat) (c : List Char), uninstFix.cfg.configs[i]? = some c →
        (∀ vs ve, launchValueSpan c steamAppId = some (vs, ve) →
          (containsSub (sliceStr c (vs + 1) ve) funnyMarker = true →
            res.st.cfg.configs[i]? =
              some (replaceRange c vs (ve + 1) (quoteVdf ("orig".toList)))) ∧
          (containsSub (sliceStr c (vs + 1) ve) funnyMarker = false →
            res.st.cfg.configs[i]? = some c)) ∧
        (launchValueSpan c steamAppId = none → res.st.cfg.configs[i]? = some c) :=
  C1_uninstall_steam_restores envQuiet .CriManaVpx uninstFix ("orig".toList) 0
    rfl rfl rfl rfl rfl rfl rfl

/-! ## Lemmas about the Steam-closed guard -/

theorem steamWaitLoop_ok (steamAt cancelAt : Nat → Bool) (fuel t0 t : Nat)
    (h : steamWaitLoop steamAt cancelAt fuel t0 = some (.ok t)) : steamAt t = false := by
  induction fuel generalizing t0 with
  | zero => cases h
  | succ n ih =>
    rw [steamWaitLoop] at h
    split at h
    · next hs =>
      cases h
      simpa using hs
    · split at h
      · simp at h
      · exact ih (t0 + 1) h

theorem steamWaitLoop_error (steamAt cancelAt : Nat → Bool) (fuel t0 : Nat) (e : InstErr)
    (h : steamWaitLoop steamAt cancelAt fuel t0 = some (.error e)) :
    e = .generic steamRunningMsg := by
  induction fuel generalizing t0 with
  | zero => cases h
  | succ n ih =>
    rw [steamWaitLoop] at h
    split at h
    · simp at h
    · split at h
      · simp only [Option.some.injEq, Except.error.injEq] at h
        exact h.symm
      · exact ih (t0 + 1) h

theorem ensureSteamClosed_ok (env : SetupEnv) (t : Nat) (hint : env.interactive = true)
    (h : ensureSteamClosed env = some (.ok t)) : env.steamAt t = false := by
  unfold ensureSteamClosed at h
  rw [hint] at h
  exact steamWaitLoop_ok env.steamAt env.cancelAt env.fuel 0 t h

theorem ensureSteamClosed_error (env : SetupEnv) (e : InstErr)
    (h : ensureSteamClosed env = some (.error e)) : e = .generic steamRunningMsg := by
  unfold ensureSteamClosed at h
  split at h
  · simp at h
  · exact steamWaitLoop_error env.steamAt env.cancelAt env.fuel 0 e h

/-- Every outcome of `setup_launch_options` either succeeded or left
the store untouched with no writes; and an edit instant always comes
from a successful Steam-closed check. -/
theorem setupLaunchOptions_shape (env : SetupEnv) (launchCmd appId : List Char) (st : CfgSt)
    (res : SetupRes) (h : setupLaunchOptions env launchCmd appId st = some res) :
    (res.result = .ok () ∨ (res.st = st ∧ res.writes = [])) ∧
    (∀ t, res.editTime = some t → ensureSteamClosed env = some (.ok t)) := by
  unfold setupLaunchOptions at h
  dsimp only at h
  split at h
  · cases h
    exact ⟨Or.inr ⟨rfl, rfl⟩, fun t ht => by cases ht⟩
  · split at h
    · cases h
      exact ⟨Or.inl rfl, fun t ht => by cases ht⟩
    · split at h
      · cases h
        exact ⟨Or.inl rfl, fun t ht => by cases ht⟩
      · split at h
        · cases h
        · cases h
          exact ⟨Or.inr ⟨rfl, rfl⟩, fun t ht => by cases ht⟩
        · next t0 hen =>
          split at h
          · cases h
            exact ⟨Or.inl rfl, fun t ht => by cases ht⟩
          · split at h
            · cases h
              exact ⟨Or.inr ⟨rfl, rfl⟩, fun t ht => by cases ht⟩
            · split at h
              · cases h
                exact ⟨Or.inl rfl, fun t ht => by cases ht⟩
              · cases h
                refine ⟨Or.inl rfl, fun t ht => ?_⟩
                simp only [Option.some.injEq] at ht
                rw [← ht]
                exact hen

/-- The analogue for `restore_launch_options`. -/
theorem restoreLaunchOptions_shape (env : SetupEnv) (appId : List Char) (st : CfgSt)
    (res : RestoreRes) (h : restoreLaunchOptions env appId st = some res) :
    (res.result = .ok () ∨ res.st = st) ∧
    (∀ t, res.editTime = some t → ensureSteamClosed env = some (.ok t)) := by
  unfold restoreLaunchOptions at h
  split at h
  · cases h
    exact ⟨Or.inl rfl, fun t ht => by cases ht⟩
  · split at h
    · cases h
    · cases h
      exact ⟨Or.inr rfl, fun t ht => by cases ht⟩
    · next t0 hen =>
      split at h
      · cases h
        exact ⟨Or.inr rfl, fun t ht => by cases ht⟩
      · split at h
        · cases h
          exact ⟨Or.inl rfl, fun t ht => by cases ht⟩
        · split at h
          · cases h
            exact ⟨Or.inr rfl, fun t ht => by cases ht⟩
          · split at h
            · cases h
              exact ⟨Or.inl rfl, fun t ht => by cases ht⟩
            · cases h
              refine ⟨Or.inl rfl, fun t ht => ?_⟩
              simp only [Option.some.injEq] at ht
              rw [← ht]
              exact hen

/-- C4 (amended): in interactive mode (a window handle present), the
Steam-closed guard only lets an operation proceed at an instant where
the Steam process was observed not running, it repeatedly re-polls on
retry, and choosing cancel aborts with the descriptive error message;
any setup or restore run that ends in an error has modified no config
file (and setup has performed no write at all); every config mutation
instant of setup or restore in interactive mode is one where Steam was
observed closed. In non-interactive mode the check is skipped
entirely. -/
theorem C4_steam_closed_guard :
    (∀ env : SetupEnv, ∀ t : Nat, env.interactive = true →
      ensureSteamClosed env = some (.ok t) → env.steamAt t = false) ∧
    (∀ env : SetupEnv, ∀ e : InstErr, ensureSteamClosed env = some (.error e) →
      e = .generic steamRunningMsg) ∧
    (∀ (env : SetupEnv) (launchCmd appId : List Char) (st : CfgSt) (res : SetupRes)
      (e : InstErr), setupLaunchOptions env launchCmd appId st = some res →
      res.result = .error e → res.st = st ∧ res.writes = []) ∧
    (∀ (env : SetupEnv) (launchCmd appId : List Char) (st : CfgSt) (res : SetupRes)
      (t : Nat), setupLaunchOptions env launchCmd appId st = some res →
      res.editTime = some t → env.interactive = true → env.steamAt t = false) ∧
    (∀ (env : SetupEnv) (appId : List Char) (st : CfgSt) (res : RestoreRes) (e : InstErr),
      restoreLaunchOptions env appId st = some res →
      res.result = .error e → res.st = st) ∧
    (∀ (env : SetupEnv) (appId : List Char) (st : CfgSt) (res : RestoreRes) (t : Nat),
      restoreLaunchOptions env appId st = some res →
      res.editTime = some t → env.interactive = true → env.steamAt t = false) ∧
    (∀ env : SetupEnv, env.interactive = false → ensureSteamClosed env = some (.ok 0)) := by
  refine ⟨ensureSteamClosed_ok, ensureSteamClosed_error, ?_, ?_, ?_, ?_, ?_⟩
  · intro env launchCmd appId st res e h hres
    rcases (setupLaunchOptions_shape env launchCmd appId st res h).1 with hok | hun
    · rw [hres] at hok
      cases hok
    · exact hun
  · intro env launchCmd appId st res t h ht hint
    exact ensureSteamClosed_ok env t hint
      ((setupLaunchOptions_shape env launchCmd appId st res h).2 t ht)
  · intro env appId st res e h hres
    rcases (restoreLaunchOptions_shape env appId st res h).1 with hok | hun
    · rw [hres] at hok
      cases hok
    · exact hun
  · intro env appId st res t h ht hint
    exact ensureSteamClosed_ok env t hint
      ((restoreLaunchOptions_shape env appId st res h).2 t ht)
  · intro env hint
    unfold ensureSteamClosed
    rw [hint]
    rfl

/-- C4 counterexample: the claim as stated says no config file is
mutated while Steam is running; with no window handle (non-interactive
mode) the guard is skipped, and setup rewrites a profile config at
instant 0 although the Steam process is running at that very instant —
no prompt ever occurred. -/
theorem C4_counterexample :
    (setupLaunchOptions envSteamUp ['X'] steamAppId ⟨[cfgPlain], none⟩).map
        (fun r => (r.writes.length, r.editTime, r.prompted, r.result)) =
      some (2, some 0, false, .ok ()) ∧
    (setupLaunchOptions envSteamUp ['X'] steamAppId ⟨[cfgPlain], none⟩).map
        (fun r => r.st.configs) ≠ some [cfgPlain] ∧
    envSteamUp.steamAt 0 = true ∧
    envSteamUp.interactive = false := by decide

/-- C4 witness: an interactive environment whose check succeeds
observed Steam closed at the proceed instant. -/
theorem C4_witness : envInter.steamAt 0 = false :=
  C4_steam_closed_guard.1 envInter 0 rfl rfl

/-! ## Lemmas about the patch engine and install -/

theorem lookup_fsWrite (fs : List (String × List Nat)) (p q : String) (d : List Nat) :
    (fsWrite fs p d).lookup q = if q = p then some d else fs.lookup q := by
  unfold fsWrite
  by_cases h : q = p
  · subst h
    simp [List.lookup]
  · rw [if_neg h]
    have hb : (q == p) = false := beq_eq_false_iff_ne.mpr h
    simp [List.lookup, hb]

theorem currentRelPath_steam_ne (target : Target) :
    currentRelPath (some .Steam) target none ≠ steamExeName ∧
    currentRelPath (some .Steam) target none ≠ "FunnyHoney.exe" ∧
    currentRelPath (some .Steam) target none ≠ "hachimi_launcher.exe" := by
  cases target <;> exact ⟨by decide, by decide, by decide⟩

/-- C3 (amended): `apply_patch` reconstructs the new bytes in memory
via the bsdiff patcher and then itself writes them to the caller-given
output path — its only filesystem effect, leaving every other path
untouched, and writing nothing at all on a patch error; during a
channel-B Steam install the original executable's entry is never
changed under any outcome, a digest mismatch aborts with a verification
error before any patched output is written, and on success the patched
bytes appear only at the same-directory sibling `FunnyHoney.exe`. -/
theorem C3_apply_patch_and_install :
    (∀ (bspatch : List Nat → List Nat → Except String (List Nat))
      (orig patch : List Nat) (out : String) (fs fs2 : List (String × List Nat)),
      applyPatch bspatch orig patch out fs = .ok fs2 →
      ∃ nd, bspatch orig patch = .ok nd ∧ fs2 = fsWrite fs out nd ∧
        ∀ q : String, q ≠ out → fs2.lookup q = fs.lookup q) ∧
    (∀ (bspatch : List Nat → List Nat → Except String (List Nat))
      (orig patch : List Nat) (out : String) (fs : List (String × List Nat)) (e : String),
      bspatch orig patch = .error e →
      applyPatch bspatch orig patch out fs = .error e) ∧
    (∀ (hash : List Nat → List Nat) (bspatch : List Nat → List Nat → Except String (List Nat))
      (dllBytes launcherBytes patchData : List Nat) (env : SetupEnv) (launchCmd : List Char)
      (target : Target) (st : InstSt) (res : InstallRes),
      env.dirSet = true →
      installM hash bspatch dllBytes launcherBytes patchData env launchCmd
        (some .Steam) target none st = some res →
      res.st.gameFiles.lookup steamExeName = st.gameFiles.lookup steamExeName) ∧
    (∀ (hash : List Nat → List Nat) (bspatch : List Nat → List Nat → Except String (List Nat))
      (dllBytes launcherBytes patchData : List Nat) (env : SetupEnv) (launchCmd : List Char)
      (target : Target) (st : InstSt) (res : InstallRes) (d : List Nat),
      env.dirSet = true →
      installM hash bspatch dllBytes launcherBytes patchData env launchCmd
        (some .Steam) target none st = some res →
      st.gameFiles.lookup steamExeName = some d →
      lowerStr (hexOfBytes (hash d)) ≠ lowerStr expectedOriginalHash →
      (∃ details, res.result = .error (.verification details)) ∧
      res.st.gameFiles.lookup "FunnyHoney.exe" = st.gameFiles.lookup "FunnyHoney.exe") ∧
    (∀ (hash : List Nat → List Nat) (bspatch : List Nat → List Nat → Except String (List Nat))
      (dllBytes launcherBytes patchData : List Nat) (env : SetupEnv) (launchCmd : List Char)
      (target : Target) (st : InstSt) (res : InstallRes),
      env.dirSet = true →
      installM hash bspatch dllBytes launcherBytes patchData env launchCmd
        (some .Steam) target none st = some res →
      res.result = .ok () →
      ∃ d nd, st.gameFiles.lookup steamExeName = some d ∧ bspatch d patchData = .ok nd ∧
        res.st.gameFiles.lookup "FunnyHoney.exe" = some nd) := by
  refine ⟨?_, ?_, ?_, ?_, ?_⟩
  · intro bspatch orig patch out fs fs2 h
    unfold applyPatch at h
    split at h
    · cases h
    · next nd hnd =>
      simp only [Except.ok.injEq] at h
      subst h
      refine ⟨nd, hnd, rfl, ?_⟩
      intro q hq
      rw [lookup_fsWrite, if_neg hq]
  · intro bspatch orig patch out fs e hb
    unfold applyPatch
    rw [hb]
  · intro hash bspatch dllBytes launcherBytes patchData env launchCmd target st res hdir h
    have hne := currentRelPath_steam_ne target
    unfold installM at h
    rw [if_neg (by simp [hdir])] at h
    dsimp only at h
    split at h
    · next herr =>
      cases h
      dsimp only
      rw [lookup_fsWrite, if_neg (Ne.symm hne.1)]
    · split at h
      · cases h
        dsimp only
        rw [lookup_fsWrite, if_neg (Ne.symm hne.1)]
      · next origData hod =>
        split at h
        · cases h
          dsimp only
          rw [lookup_fsWrite, if_neg (Ne.symm hne.1)]
        · next patched hpat =>
          split at h
          · cases h
          · next r hsetup =>
            cases h
            dsimp only
            rw [lookup_fsWrite,
              if_neg (by decide : ¬(steamExeName = "hachimi_launcher.exe")),
              lookup_fsWrite, if_neg (by decide : ¬(steamExeName = "FunnyHoney.exe")),
              lookup_fsWrite, if_neg (Ne.symm hne.1)]
  · intro hash bspatch dllBytes launcherBytes patchData env launchCmd target st res d hdir h
      hlk hmm
    have hne := currentRelPath_steam_ne target
    unfold installM at h
    rw [if_neg (by simp [hdir])] at h
    dsimp only at h
    have hlk1 : (fsWrite st.gameFiles (currentRelPath (some .Steam) target none)
        dllBytes).lookup steamExeName = some d := by
      rw [lookup_fsWrite, if_neg (Ne.symm hne.1)]
      exact hlk
    rw [hlk1] at h
    have hverr : verifyFileHash hash "os" (some d) expectedOriginalHash =
        .error ("Hash mismatch. Expected " ++ expectedOriginalHash ++ ", but found " ++
          hexOfBytes (hash d)) := by
      unfold verifyFileHash
      dsimp only
      rw [if_neg hmm]
    rw [hverr] at h
    dsimp only at h
    cases h
    refine ⟨⟨_, rfl⟩, ?_⟩
    dsimp only
    rw [lookup_fsWrite, if_neg (Ne.symm hne.2.1)]
  · intro hash bspatch dllBytes launcherBytes patchData env launchCmd target st res hdir h hok
    have hne := currentRelPath_steam_ne target
    unfold installM at h
    rw [if_neg (by simp [hdir])] at h
    dsimp only at h
    split at h
    · next herr =>
      cases h
      dsimp only at hok
      simp at hok
    · split at h
      · cases h
        dsimp only at hok
        simp at hok
      · next origData hod =>
        split at h
        · cases h
          dsimp only at hok
          simp at hok
        · next patched hpat =>
          split at h
          · cases h
          · next r hsetup =>
            cases h
            dsimp only at hok ⊢
            have hl : st.gameFiles.lookup steamExeName = some origData := by
              rw [lookup_fsWrite, if_neg (Ne.symm hne.1)] at hod
              exact hod
            refine ⟨origData, patched, hl, hpat, ?_⟩
            rw [lookup_fsWrite,
              if_neg (by decide : ¬(("FunnyHoney.exe" : String) = "hachimi_launcher.exe")),
              lookup_fsWrite, if_pos rfl]

/-- C3 counterexample: the claim as stated says `apply_patch` returns
the reconstructed bytes and does not touch disk itself; the function
takes an output path, returns no bytes (unit success), and its run on
an empty filesystem creates the output file itself — the filesystem
after the call differs from the one before. -/
theorem C3_counterexample :
    applyPatch bspatchConst [] [] "out.exe" [] = .ok [("out.exe", [1, 2])] ∧
    ([] : List (String × List Nat)).lookup "out.exe" = none ∧
    ([("out.exe", [1, 2])] : List (String × List Nat)).lookup "out.exe" = some [1, 2] := by
  decide

/-- C3 witness: a failing bsdiff stream aborts `apply_patch` before any
write. -/
theorem C3_witness : applyPatch bspatchFail [] [] "out.exe" [] = .error "bad" :=
  C3_apply_patch_and_install.2.1 bspatchFail [] [] "out.exe" [] "bad" rfl
